import Mathlib

/-!
Shallow embedding of the storey dataflow core (`src/storey/flow.py`) and
proofs about its execution semantics.

Conventions of the embedding:
* Python exceptions are values of `PyExn`; fallible Python code is embedded
  as `Except PyExn`-valued functions.
* The mutable `_result` attribute of `Reduce` instances is modelled as a
  heap: a `Store` mapping a cell index to the accumulator value, threaded
  explicitly through event processing.
* Python `None` used as a termination result is `Option.none`.
* The asyncio run loop of `Source` is modelled sequentially: it processes
  the admission-queue items one at a time, in FIFO order, exactly as
  `Source._run_loop` does (one full tree traversal per item).
-/

set_option autoImplicit false

/-- Python-level exceptions the modelled code can raise. `indexError` is the
`IndexError` raised by `self._outlets[0]` on an empty outlet list;
`userError` stands for an exception raised by a user-supplied function. -/
inductive PyExn : Type where
  | indexError : PyExn
  | userError : String → PyExn
deriving DecidableEq

/-- An event flowing through the graph, after
`Event = collections.namedtuple('Event', 'element key time')`.
`key` is optional because `emit` defaults it to `None`. -/
structure Event (α κ τ : Type) : Type where
  element : α
  key : Option κ
  time : τ
deriving DecidableEq

/-- The heap of `Reduce` accumulator cells (one cell per `Reduce` instance,
modelling its mutable `self._result` attribute). -/
def Store (ρ : Type) : Type := Nat → ρ

/-- Assignment `self._result = res` for the reduce cell `i`. -/
def setStore {ρ : Type} (σ : Store ρ) (i : Nat) (v : ρ) : Store ρ :=
  fun j => if j = i then v else σ j

/-- The node graph. Each constructor embeds one `Flow` subclass of the
source. `map`, `filter` and `flatMap` carry the user function, the node's
`termination_result_fn` and the ordered outlet list; `reduce` carries the
index of its accumulator cell and its binary function (in the source,
`Reduce.__init__` accepts no `termination_result_fn` and `Reduce.to`
refuses outlets, so `reduce` has neither). -/
inductive Node (α κ τ ρ : Type) : Type where
  | map (f : α → Except PyExn α) (rf : Option ρ → Option ρ → Option ρ)
      (outs : List (Node α κ τ ρ))
  | filter (p : α → Except PyExn Bool) (rf : Option ρ → Option ρ → Option ρ)
      (outs : List (Node α κ τ ρ))
  | flatMap (f : α → Except PyExn (List α)) (rf : Option ρ → Option ρ → Option ρ)
      (outs : List (Node α κ τ ρ))
  | reduce (cell : Nat) (f : ρ → α → Except PyExn ρ)

/-- The default `termination_result_fn` of `Flow.__init__`:
`lambda x, y: None`. -/
def defaultResFn {ρ : Type} : Option ρ → Option ρ → Option ρ := fun _ _ => none

mutual

/-- One node processing one (non-termination) event: `Flow._do(event)` for
each subclass, with the store threaded for `Reduce._result` mutation.
`map` builds `Event(mapped_element, event.key, event.time)` and forwards it;
`filter` forwards the original event iff the predicate holds; `flatMap`
forwards one derived event per element of the user function's result, in
order; `reduce` folds the payload into its accumulator cell. -/
def doEvent {α κ τ ρ : Type} : Node α κ τ ρ → Store ρ → Event α κ τ →
    Except PyExn (Store ρ)
  | .map f _ outs, σ, e => do
      let r ← f e.element
      doEventList outs σ ⟨r, e.key, e.time⟩
  | .filter p _ outs, σ, e => do
      let keep ← p e.element
      if keep then doEventList outs σ e else pure σ
  | .flatMap f _ outs, σ, e => do
      let xs ← f e.element
      doElems outs σ (xs.map fun x => ⟨x, e.key, e.time⟩)
  | .reduce i f, σ, e => do
      let r ← f (σ i) e.element
      pure (setStore σ i r)
  termination_by n _ _ => (sizeOf n, 0)

/-- `Flow._do_downstream(event)` for a regular event: deliver the event to
every outlet (the source starts all outlet tasks and awaits them all; the
single-threaded cooperative scheduling is modelled as left-to-right
processing). -/
def doEventList {α κ τ ρ : Type} : List (Node α κ τ ρ) → Store ρ → Event α κ τ →
    Except PyExn (Store ρ)
  | [], σ, _ => pure σ
  | n :: ns, σ, e => do
      let σ1 ← doEvent n σ e
      doEventList ns σ1 e
  termination_by ns _ _ => (sizeOf ns, 0)

/-- The loop of `FlatMap._do_internal`: forward each derived event, in
order, through the full outlet fan-out. -/
def doElems {α κ τ ρ : Type} : List (Node α κ τ ρ) → Store ρ → List (Event α κ τ) →
    Except PyExn (Store ρ)
  | _, σ, [] => pure σ
  | outs, σ, ev :: evs => do
      let σ1 ← doEventList outs σ ev
      doElems outs σ1 evs
  termination_by outs _ evs => (sizeOf outs, evs.length + 1)

end

mutual

/-- One node processing the termination signal: `Flow._do(_termination_obj)`
for each subclass. `reduce` returns its accumulator cell (`return
self._result`, no mutation); every other node delegates to
`_do_downstream`. The store is returned so that frame effects are
statable. -/
def doTerm {α κ τ ρ : Type} : Node α κ τ ρ → Store ρ →
    Except PyExn (Option ρ × Store ρ)
  | .reduce i _, σ => pure (some (σ i), σ)
  | .map _ rf outs, σ => doDownstreamTerm rf outs σ
  | .filter _ rf outs, σ => doDownstreamTerm rf outs σ
  | .flatMap _ rf outs, σ => doDownstreamTerm rf outs σ
  termination_by n _ => (sizeOf n, 0)

/-- `Flow._do_downstream(_termination_obj)`: read
`self._outlets[0]._do(_termination_obj)` (raising `IndexError` when the
outlet list is empty), then fold the remaining outlets' results with the
node's `termination_result_fn`, sequentially and left to right. -/
def doDownstreamTerm {α κ τ ρ : Type} (rf : Option ρ → Option ρ → Option ρ) :
    List (Node α κ τ ρ) → Store ρ → Except PyExn (Option ρ × Store ρ)
  | [], _ => throw .indexError
  | n :: ns, σ => do
      let (r0, σ1) ← doTerm n σ
      doTermFold rf r0 ns σ1
  termination_by ns _ => (sizeOf ns, 1)

/-- The `for i in range(1, len(self._outlets))` loop of `_do_downstream`:
`termination_result = fn(termination_result, outlets[i]._do(term))`. -/
def doTermFold {α κ τ ρ : Type} (rf : Option ρ → Option ρ → Option ρ)
    (acc : Option ρ) : List (Node α κ τ ρ) → Store ρ →
    Except PyExn (Option ρ × Store ρ)
  | [], σ => pure (acc, σ)
  | n :: ns, σ => do
      let (ri, σ1) ← doTerm n σ
      doTermFold rf (rf acc ri) ns σ1
  termination_by ns _ => (sizeOf ns, 0)

end

mutual

/-- Instrumented variant of `doTerm` that additionally counts how many
times `_do(_termination_obj)` is invoked in the subtree (the
"instrument each node to count terminations received" observation). -/
def doTermCount {α κ τ ρ : Type} : Node α κ τ ρ → Store ρ →
    Except PyExn (Option ρ × Store ρ × Nat)
  | .reduce i _, σ => pure (some (σ i), σ, 1)
  | .map _ rf outs, σ => do
      let (r, σ1, c) ← doDownstreamTermCount rf outs σ
      pure (r, σ1, c + 1)
  | .filter _ rf outs, σ => do
      let (r, σ1, c) ← doDownstreamTermCount rf outs σ
      pure (r, σ1, c + 1)
  | .flatMap _ rf outs, σ => do
      let (r, σ1, c) ← doDownstreamTermCount rf outs σ
      pure (r, σ1, c + 1)
  termination_by n _ => (sizeOf n, 0)

/-- Instrumented variant of `doDownstreamTerm` counting termination
receipts in all outlet subtrees. -/
def doDownstreamTermCount {α κ τ ρ : Type} (rf : Option ρ → Option ρ → Option ρ) :
    List (Node α κ τ ρ) → Store ρ → Except PyExn (Option ρ × Store ρ × Nat)
  | [], _ => throw .indexError
  | n :: ns, σ => do
      let (r0, σ1, c0) ← doTermCount n σ
      doTermFoldCount rf r0 c0 ns σ1
  termination_by ns _ => (sizeOf ns, 1)

/-- Instrumented variant of `doTermFold`. -/
def doTermFoldCount {α κ τ ρ : Type} (rf : Option ρ → Option ρ → Option ρ)
    (acc : Option ρ) (cnt : Nat) : List (Node α κ τ ρ) → Store ρ →
    Except PyExn (Option ρ × Store ρ × Nat)
  | [], σ => pure (acc, σ, cnt)
  | n :: ns, σ => do
      let (ri, σ1, ci) ← doTermCount n σ
      doTermFoldCount rf (rf acc ri) (cnt + ci) ns σ1
  termination_by ns _ => (sizeOf ns, 0)

end

mutual

/-- Number of nodes in a subtree. -/
def nodeCount {α κ τ ρ : Type} : Node α κ τ ρ → Nat
  | .map _ _ outs => nodeListCount outs + 1
  | .filter _ _ outs => nodeListCount outs + 1
  | .flatMap _ _ outs => nodeListCount outs + 1
  | .reduce _ _ => 1
  termination_by n => (sizeOf n, 0)

/-- Number of nodes in a forest. -/
def nodeListCount {α κ τ ρ : Type} : List (Node α κ τ ρ) → Nat
  | [] => 0
  | n :: ns => nodeCount n + nodeListCount ns
  termination_by ns => (sizeOf ns, 1)

end

/-- Deliver a list of events, in order, one full tree traversal each, to
the source's outlet forest (the successful steady state of
`Source._run_loop`). -/
def procEvents {α κ τ ρ : Type} (outs : List (Node α κ τ ρ)) :
    Store ρ → List (Event α κ τ) → Except PyExn (Store ρ)
  | σ, [] => pure σ
  | σ, e :: es => do
      let σ1 ← doEventList outs σ e
      procEvents outs σ1 es

/-- An item of the admission queue: a regular event or the
`_termination_obj` sentinel. -/
inductive QItem (α κ τ : Type) : Type where
  | ev (e : Event α κ τ)
  | term
deriving DecidableEq

/-- The state of a `Source` after its run loop stops consuming items:
final store, recorded exception (`self._ex`), the termination future's
value (`none` = never set; `some r` = set to result `r`, where `r = none`
models setting it to Python `None`), the queue contents left behind, and
whether the loop actually exited (broke) as opposed to blocking on an
empty queue. -/
structure LoopOutcome (α κ τ ρ : Type) : Type where
  store : Store ρ
  ex : Option PyExn
  future : Option (Option ρ)
  rest : List (QItem α κ τ)
  exited : Bool

/-- `Source._run_loop`, sequentialized over a fixed list of queue items:
take the next item; on a regular event run the full downstream traversal;
on the termination sentinel compute the combined termination result, set
the future and break; on any exception record it in `self._ex`, discard
one pending queue item if the queue is non-empty, set the future to
`None`, and break. An exhausted item list models the loop blocking on
`self._q.get`. -/
def runLoop {α κ τ ρ : Type} (rf : Option ρ → Option ρ → Option ρ)
    (outs : List (Node α κ τ ρ)) :
    Store ρ → List (QItem α κ τ) → LoopOutcome α κ τ ρ
  | σ, [] => ⟨σ, none, none, [], false⟩
  | σ, .term :: rest =>
      match doDownstreamTerm rf outs σ with
      | .ok (r, σ1) => ⟨σ1, none, some r, rest, true⟩
      | .error ex => ⟨σ, some ex, some none, rest.tail, true⟩
  | σ, .ev e :: rest =>
      match doEventList outs σ e with
      | .ok σ1 => runLoop rf outs σ1 rest
      | .error ex => ⟨σ, some ex, some none, rest.tail, true⟩

/-- Errors surfaced to the producer thread: `FlowError` (with the original
exception as `__cause__`), or asyncio's `InvalidStateError` from reading
an unset future. -/
inductive CallerErr : Type where
  | flowError (cause : PyExn)
  | invalidState
deriving DecidableEq

/-- `Source._raise_on_error`: raise `FlowError(...) from self._ex` when an
exception has been recorded. -/
def raiseOnError : Option PyExn → Except CallerErr Unit
  | none => pure ()
  | some ex => throw (.flowError ex)

/-- `Source._emit`: check the recorded failure, perform the queue put, and
check again. The two checks may observe different snapshots of `self._ex`
(the worker runs concurrently), so both snapshots are parameters. -/
def emitModel (exBefore exAfter : Option PyExn) : Except CallerErr Unit := do
  raiseOnError exBefore
  raiseOnError exAfter

/-- `raise_error_or_return_termination_result` inside `Source.run`: first
re-raise the worker's recorded exception (read from the termination
queue), then return `self._termination_future.result()`. -/
def awaitTermination {α κ τ ρ : Type} (o : LoopOutcome α κ τ ρ) :
    Except CallerErr (Option ρ) := do
  raiseOnError o.ex
  match o.future with
  | some r => pure r
  | none => throw .invalidState

/-- An HTTP response as seen by `join_from_response`: status code and the
already-awaited body text. -/
structure HttpResponse : Type where
  status : Nat
  body : String
deriving DecidableEq

/-- An item of the `JoinWithHttp` internal queue: either a job
`(event, request_task)` — the request task modelled by the outcome its
`await` will produce (awaiting the response and its body may itself
raise) — or the `_termination_obj` marker. -/
inductive JQItem (α κ τ : Type) : Type where
  | job (e : Event α κ τ) (resp : Except PyExn HttpResponse)
  | term

/-- What the `JoinWithHttp._worker` loop body produces: the events it
forwarded downstream in order, the exception it re-raised (if any), the
queue items it left unconsumed (after the one-item drain of the `except`
branch), and whether the loop exited at all (an exhausted item list
models blocking on `self._q.get`). -/
structure WorkerExit (α κ τ : Type) : Type where
  forwarded : List (Event α κ τ)
  error : Option PyExn
  rest : List (JQItem α κ τ)
  exited : Bool

/-- The `try`/`except` part of `JoinWithHttp._worker`, consuming queue
items in FIFO order: break on the termination marker; otherwise await the
job's response, apply `join_from_response`, and forward a derived event
(original key and time) downstream iff the joined element is not `None`.
On an exception: discard one pending queue item if present and re-raise.
Downstream delivery is observed as the ordered list of forwarded events. -/
def workerBody {α κ τ : Type} (join : α → HttpResponse → Except PyExn (Option α)) :
    List (JQItem α κ τ) → List (Event α κ τ) → WorkerExit α κ τ
  | [], acc => ⟨acc.reverse, none, [], false⟩
  | .term :: rest, acc => ⟨acc.reverse, none, rest, true⟩
  | .job e resp :: rest, acc =>
      match resp >>= join e.element with
      | .ok (some j) => workerBody join rest (⟨j, e.key, e.time⟩ :: acc)
      | .ok none => workerBody join rest acc
      | .error ex => ⟨acc.reverse, some ex, rest.tail, true⟩

/-- A finished worker: the loop exit paired with whether
`self._client_session.close()` ran (the `finally` clause, which runs on
every loop exit, success or failure, and cannot run while the loop is
still blocked). -/
structure WorkerRun (α κ τ : Type) : Type where
  exit : WorkerExit α κ τ
  sessionClosed : Bool

/-- `JoinWithHttp._worker` in full: the `try`/`except` body followed by the
`finally` clause closing the client session on either exit path. -/
def workerRun {α κ τ : Type} (join : α → HttpResponse → Except PyExn (Option α))
    (q : List (JQItem α κ τ)) : WorkerRun α κ τ :=
  match workerBody join q [] with
  | ⟨fwd, err, rest, true⟩ => ⟨⟨fwd, err, rest, true⟩, true⟩
  | ⟨fwd, err, rest, false⟩ => ⟨⟨fwd, err, rest, false⟩, false⟩

/-- The termination branch of `JoinWithHttp._do`: put `_termination_obj`
into the internal queue, await the worker task (re-raising its failure if
it raised), and only then forward the termination signal downstream via
`_do_downstream`. `pending` is the queue contents at that moment. -/
def joinDoTerm {α κ τ ρ : Type} (join : α → HttpResponse → Except PyExn (Option α))
    (pending : List (JQItem α κ τ)) (rf : Option ρ → Option ρ → Option ρ)
    (outs : List (Node α κ τ ρ)) (σ : Store ρ) :
    Except PyExn (Option ρ × Store ρ) :=
  match (workerRun join (pending ++ [.term])).exit.error with
  | some ex => throw ex
  | none => doDownstreamTerm rf outs σ

/-- The event a single queued job contributes downstream, if any: the
joined element under the original key and time, provided the response
awaits cleanly and `join_from_response` returns a non-`None` element. -/
def derivedEvent {α κ τ : Type} (join : α → HttpResponse → Except PyExn (Option α)) :
    JQItem α κ τ → Option (Event α κ τ)
  | .job e resp =>
      match resp >>= join e.element with
      | .ok (some j) => some ⟨j, e.key, e.time⟩
      | _ => none
  | .term => none

/-- A queued job neither fails its await nor fails the join. -/
def jobOk {α κ τ : Type} (join : α → HttpResponse → Except PyExn (Option α)) :
    JQItem α κ τ → Prop
  | .job e resp => ∃ r, resp >>= join e.element = .ok r
  | .term => False

/-! Reduction lemmas for the mutually recursive traversals. -/

theorem doEventList_nil {α κ τ ρ : Type} (σ : Store ρ) (e : Event α κ τ) :
    doEventList ([] : List (Node α κ τ ρ)) σ e = .ok σ := by
  simp [doEventList, pure, Except.pure]

theorem doEventList_cons {α κ τ ρ : Type} (n : Node α κ τ ρ)
    (ns : List (Node α κ τ ρ)) (σ : Store ρ) (e : Event α κ τ) :
    doEventList (n :: ns) σ e = doEvent n σ e >>= fun σ1 => doEventList ns σ1 e := by
  simp [doEventList]

theorem doEvent_map_ok {α κ τ ρ : Type} (f : α → α)
    (rf : Option ρ → Option ρ → Option ρ) (outs : List (Node α κ τ ρ))
    (σ : Store ρ) (e : Event α κ τ) :
    doEvent (Node.map (fun x => .ok (f x)) rf outs) σ e
      = doEventList outs σ ⟨f e.element, e.key, e.time⟩ := by
  simp [doEvent, Bind.bind, Except.bind]

theorem doEvent_filter_ok {α κ τ ρ : Type} (p : α → Bool)
    (rf : Option ρ → Option ρ → Option ρ) (outs : List (Node α κ τ ρ))
    (σ : Store ρ) (e : Event α κ τ) :
    doEvent (Node.filter (fun x => .ok (p x)) rf outs) σ e
      = if p e.element then doEventList outs σ e else .ok σ := by
  simp [doEvent, Bind.bind, Except.bind, pure, Except.pure]

theorem doEvent_flatMap_ok {α κ τ ρ : Type} (f : α → List α)
    (rf : Option ρ → Option ρ → Option ρ) (outs : List (Node α κ τ ρ))
    (σ : Store ρ) (e : Event α κ τ) :
    doEvent (Node.flatMap (fun x => .ok (f x)) rf outs) σ e
      = doElems outs σ ((f e.element).map fun x => ⟨x, e.key, e.time⟩) := by
  simp [doEvent, Bind.bind, Except.bind]

theorem doEvent_reduce_ok {α κ τ ρ : Type} (i : Nat) (g : ρ → α → ρ)
    (σ : Store ρ) (e : Event α κ τ) :
    doEvent (Node.reduce (κ := κ) (τ := τ) i (fun a x => .ok (g a x))) σ e
      = .ok (setStore σ i (g (σ i) e.element)) := by
  simp [doEvent, Bind.bind, Except.bind, pure, Except.pure]

theorem doTerm_reduce {α κ τ ρ : Type} (i : Nat) (f : ρ → α → Except PyExn ρ)
    (σ : Store ρ) :
    doTerm (Node.reduce (α := α) (κ := κ) (τ := τ) i f) σ = .ok (some (σ i), σ) := by
  simp [doTerm, pure, Except.pure]

theorem doDownstreamTerm_nil {α κ τ ρ : Type} (rf : Option ρ → Option ρ → Option ρ)
    (σ : Store ρ) :
    doDownstreamTerm rf ([] : List (Node α κ τ ρ)) σ = .error .indexError := by
  simp [doDownstreamTerm, throw, throwThe, MonadExceptOf.throw]

theorem doDownstreamTerm_single {α κ τ ρ : Type} (rf : Option ρ → Option ρ → Option ρ)
    (n : Node α κ τ ρ) (σ : Store ρ) :
    doDownstreamTerm rf [n] σ = doTerm n σ := by
  simp [doDownstreamTerm, doTermFold]

/-! Store lemmas. -/

theorem setStore_apply_self {ρ : Type} (σ : Store ρ) (i : Nat) (v : ρ) :
    setStore σ i v i = v := by
  simp [setStore]

theorem setStore_setStore {ρ : Type} (σ : Store ρ) (i : Nat) (a b : ρ) :
    setStore (setStore σ i a) i b = setStore σ i b := by
  funext j
  simp only [setStore]
  split <;> rfl

theorem setStore_self {ρ : Type} (σ : Store ρ) (i : Nat) :
    setStore σ i (σ i) = σ := by
  funext j
  simp only [setStore]
  split <;> simp_all

/-! A pipeline of identity maps in front of a node is transparent. -/

/-- A chain of `k` identity `Map` nodes (each with the default combiner)
wired in front of `inner`. -/
def idMapChain {α κ τ ρ : Type} : Nat → Node α κ τ ρ → Node α κ τ ρ
  | 0, inner => inner
  | k + 1, inner => .map (fun x => .ok x) defaultResFn [idMapChain k inner]

theorem idMapChain_doEvent {α κ τ ρ : Type} (k : Nat) (inner : Node α κ τ ρ)
    (σ : Store ρ) (e : Event α κ τ) :
    doEvent (idMapChain k inner) σ e = doEvent inner σ e := by
  induction k generalizing σ with
  | zero => rfl
  | succ k ih =>
      have h1 : doEvent (idMapChain (k + 1) inner) σ e
          = doEventList [idMapChain k inner] σ ⟨e.element, e.key, e.time⟩ := by
        simpa [idMapChain] using
          doEvent_map_ok (fun x => x) defaultResFn [idMapChain k inner] σ e
      rw [h1, doEventList_cons]
      show doEvent (idMapChain k inner) σ e >>= (fun σ1 => doEventList [] σ1 e)
          = doEvent inner σ e
      rw [ih]
      rcases doEvent inner σ e with ex | σ1
      · rfl
      · show doEventList [] σ1 e = _
        rw [doEventList_nil]

theorem idMapChain_doTerm {α κ τ ρ : Type} (k : Nat) (inner : Node α κ τ ρ)
    (σ : Store ρ) :
    doTerm (idMapChain k inner) σ = doTerm inner σ := by
  induction k with
  | zero => rfl
  | succ k ih =>
      have h1 : doTerm (idMapChain (k + 1) inner) σ
          = doDownstreamTerm defaultResFn [idMapChain k inner] σ := by
        simp [idMapChain, doTerm]
      rw [h1, doDownstreamTerm_single, ih]

/-! Pipeline folding lemmas. -/

theorem procEvents_chain_reduce {α κ τ ρ : Type} (k : Nat) (i : Nat)
    (g : ρ → α → ρ) (σ : Store ρ) (es : List (Event α κ τ)) :
    procEvents [idMapChain k (Node.reduce i (fun a x => .ok (g a x)))] σ es
      = .ok (setStore σ i (es.foldl (fun a e => g a e.element) (σ i))) := by
  induction es generalizing σ with
  | nil => simp [procEvents, setStore_self, pure, Except.pure]
  | cons e es ih =>
      have hstep : doEventList [idMapChain k (Node.reduce i (fun a x => .ok (g a x)))] σ e
          = .ok (setStore σ i (g (σ i) e.element)) := by
        rw [doEventList_cons, idMapChain_doEvent, doEvent_reduce_ok]
        simp [doEventList_nil, Bind.bind, Except.bind]
      calc procEvents [idMapChain k (Node.reduce i (fun a x => .ok (g a x)))] σ (e :: es)
          = procEvents [idMapChain k (Node.reduce i (fun a x => .ok (g a x)))]
              (setStore σ i (g (σ i) e.element)) es := by
            simp [procEvents, hstep, Bind.bind, Except.bind]
        _ = .ok (setStore σ i ((e :: es).foldl (fun a e => g a e.element) (σ i))) := by
            rw [ih, setStore_setStore, setStore_apply_self]
            rfl

theorem procEvents_filter_reduce {α κ τ : Type} (p : α → Bool) (i : Nat)
    (σ : Store (List α)) (es : List (Event α κ τ)) :
    procEvents [Node.filter (fun x => .ok (p x)) defaultResFn
        [Node.reduce i (fun (a : List α) x => .ok (a ++ [x]))]] σ es
      = .ok (setStore σ i (σ i ++ (es.map Event.element).filter p)) := by
  induction es generalizing σ with
  | nil => simp [procEvents, setStore_self, pure, Except.pure]
  | cons e es ih =>
      by_cases hp : p e.element
      · have hstep : doEventList [Node.filter (fun x => .ok (p x)) defaultResFn
              [Node.reduce i (fun (a : List α) x => .ok (a ++ [x]))]] σ e
            = .ok (setStore σ i (σ i ++ [e.element])) := by
          rw [doEventList_cons, doEvent_filter_ok, if_pos hp, doEventList_cons,
            doEvent_reduce_ok]
          simp [doEventList_nil, Bind.bind, Except.bind]
        calc procEvents _ σ (e :: es)
            = procEvents [Node.filter (fun x => .ok (p x)) defaultResFn
                [Node.reduce i (fun (a : List α) x => .ok (a ++ [x]))]]
                (setStore σ i (σ i ++ [e.element])) es := by
              simp [procEvents, hstep, Bind.bind, Except.bind]
          _ = .ok (setStore σ i (σ i ++ ((e :: es).map Event.element).filter p)) := by
              rw [ih, setStore_setStore, setStore_apply_self]
              simp [hp]
      · have hstep : doEventList [Node.filter (fun x => .ok (p x)) defaultResFn
              [Node.reduce i (fun (a : List α) x => .ok (a ++ [x]))]] σ e
            = .ok σ := by
          rw [doEventList_cons, doEvent_filter_ok, if_neg hp]
          simp [doEventList_nil, Bind.bind, Except.bind]
        calc procEvents _ σ (e :: es)
            = procEvents [Node.filter (fun x => .ok (p x)) defaultResFn
                [Node.reduce i (fun (a : List α) x => .ok (a ++ [x]))]] σ es := by
              simp [procEvents, hstep, Bind.bind, Except.bind]
          _ = .ok (setStore σ i (σ i ++ ((e :: es).map Event.element).filter p)) := by
              rw [ih]
              simp [hp]

/-! Termination processing never mutates the store (frame property). -/

mutual

theorem doTerm_frame {α κ τ ρ : Type} (n : Node α κ τ ρ) (σ : Store ρ) :
    ∀ r σ', doTerm n σ = .ok (r, σ') → σ' = σ := by
  intro r σ' h
  cases n with
  | reduce i f =>
      rw [doTerm_reduce] at h
      cases h
      rfl
  | map f rf outs =>
      simp only [doTerm] at h
      exact doDownstreamTerm_frame rf outs σ r σ' h
  | filter p rf outs =>
      simp only [doTerm] at h
      exact doDownstreamTerm_frame rf outs σ r σ' h
  | flatMap f rf outs =>
      simp only [doTerm] at h
      exact doDownstreamTerm_frame rf outs σ r σ' h
  termination_by sizeOf n

theorem doDownstreamTerm_frame {α κ τ ρ : Type}
    (rf : Option ρ → Option ρ → Option ρ) (ns : List (Node α κ τ ρ))
    (σ : Store ρ) :
    ∀ r σ', doDownstreamTerm rf ns σ = .ok (r, σ') → σ' = σ := by
  intro r σ' h
  cases ns with
  | nil =>
      rw [doDownstreamTerm_nil] at h
      exact absurd h (by simp)
  | cons n ns =>
      simp only [doDownstreamTerm] at h
      cases hd : doTerm n σ with
      | error ex =>
          rw [hd] at h
          simp [Bind.bind, Except.bind] at h
      | ok p =>
          obtain ⟨r0, σ1⟩ := p
          rw [hd] at h
          simp only [Bind.bind, Except.bind] at h
          have h1 := doTerm_frame n σ r0 σ1 hd
          have h2 := doTermFold_frame rf r0 ns σ1 r σ' h
          rw [h2, h1]
  termination_by sizeOf ns

theorem doTermFold_frame {α κ τ ρ : Type}
    (rf : Option ρ → Option ρ → Option ρ) (acc : Option ρ)
    (ns : List (Node α κ τ ρ)) (σ : Store ρ) :
    ∀ r σ', doTermFold rf acc ns σ = .ok (r, σ') → σ' = σ := by
  intro r σ' h
  cases ns with
  | nil =>
      simp only [doTermFold, pure, Except.pure] at h
      cases h
      rfl
  | cons n ns =>
      simp only [doTermFold] at h
      cases hd : doTerm n σ with
      | error ex =>
          rw [hd] at h
          simp [Bind.bind, Except.bind] at h
      | ok p =>
          obtain ⟨ri, σ1⟩ := p
          rw [hd] at h
          simp only [Bind.bind, Except.bind] at h
          have h1 := doTerm_frame n σ ri σ1 hd
          have h2 := doTermFold_frame rf (rf acc ri) ns σ1 r σ' h
          rw [h2, h1]
  termination_by sizeOf ns

end

/-! The instrumented termination traversal agrees with the plain one and
counts exactly one receipt per node. -/

mutual

theorem doTermCount_eq {α κ τ ρ : Type} (n : Node α κ τ ρ) (σ : Store ρ) :
    doTermCount n σ
      = (doTerm n σ).map (fun p => (p.1, p.2, nodeCount n)) := by
  cases n with
  | reduce i f =>
      simp [doTermCount, doTerm, nodeCount, pure, Except.pure, Except.map]
  | map f rf outs =>
      rw [show doTermCount (Node.map f rf outs) σ
            = (doDownstreamTermCount rf outs σ) >>= fun p => pure (p.1, p.2.1, p.2.2 + 1)
          from by simp [doTermCount]]
      rw [doDownstreamTermCount_eq rf outs σ]
      simp only [doTerm]
      cases doDownstreamTerm rf outs σ with
      | error ex => simp [Except.map, Bind.bind, Except.bind]
      | ok p =>
          simp [Except.map, Bind.bind, Except.bind, pure, Except.pure, nodeCount]
  | filter p rf outs =>
      rw [show doTermCount (Node.filter p rf outs) σ
            = (doDownstreamTermCount rf outs σ) >>= fun q => pure (q.1, q.2.1, q.2.2 + 1)
          from by simp [doTermCount]]
      rw [doDownstreamTermCount_eq rf outs σ]
      simp only [doTerm]
      cases doDownstreamTerm rf outs σ with
      | error ex => simp [Except.map, Bind.bind, Except.bind]
      | ok q =>
          simp [Except.map, Bind.bind, Except.bind, pure, Except.pure, nodeCount]
  | flatMap f rf outs =>
      rw [show doTermCount (Node.flatMap f rf outs) σ
            = (doDownstreamTermCount rf outs σ) >>= fun p => pure (p.1, p.2.1, p.2.2 + 1)
          from by simp [doTermCount]]
      rw [doDownstreamTermCount_eq rf outs σ]
      simp only [doTerm]
      cases doDownstreamTerm rf outs σ with
      | error ex => simp [Except.map, Bind.bind, Except.bind]
      | ok p =>
          simp [Except.map, Bind.bind, Except.bind, pure, Except.pure, nodeCount]
  termination_by sizeOf n

theorem doDownstreamTermCount_eq {α κ τ ρ : Type}
    (rf : Option ρ → Option ρ → Option ρ) (ns : List (Node α κ τ ρ))
    (σ : Store ρ) :
    doDownstreamTermCount rf ns σ
      = (doDownstreamTerm rf ns σ).map (fun p => (p.1, p.2, nodeListCount ns)) := by
  cases ns with
  | nil =>
      simp [doDownstreamTermCount, doDownstreamTerm, Except.map, throw, throwThe,
        MonadExceptOf.throw]
  | cons n ns =>
      simp only [doDownstreamTermCount, doDownstreamTerm]
      rw [doTermCount_eq n σ]
      cases doTerm n σ with
      | error ex => simp [Except.map, Bind.bind, Except.bind]
      | ok p =>
          obtain ⟨r0, σ1⟩ := p
          simp only [Except.map, Bind.bind, Except.bind]
          rw [doTermFoldCount_eq rf r0 (nodeCount n) ns σ1]
          cases doTermFold rf r0 ns σ1 with
          | error ex => simp [Except.map]
          | ok q => simp [Except.map, nodeListCount]
  termination_by sizeOf ns

theorem doTermFoldCount_eq {α κ τ ρ : Type}
    (rf : Option ρ → Option ρ → Option ρ) (acc : Option ρ) (c : Nat)
    (ns : List (Node α κ τ ρ)) (σ : Store ρ) :
    doTermFoldCount rf acc c ns σ
      = (doTermFold rf acc ns σ).map (fun p => (p.1, p.2, c + nodeListCount ns)) := by
  cases ns with
  | nil =>
      simp [doTermFoldCount, doTermFold, Except.map, pure, Except.pure, nodeListCount]
  | cons n ns =>
      simp only [doTermFoldCount, doTermFold]
      rw [doTermCount_eq n σ]
      cases doTerm n σ with
      | error ex => simp [Except.map, Bind.bind, Except.bind]
      | ok p =>
          obtain ⟨ri, σ1⟩ := p
          simp only [Except.map, Bind.bind, Except.bind]
          rw [doTermFoldCount_eq rf (rf acc ri) (c + nodeCount n) ns σ1]
          cases doTermFold rf (rf acc ri) ns σ1 with
          | error ex => simp [Except.map]
          | ok q => simp [Except.map, nodeListCount, Nat.add_assoc]
  termination_by sizeOf ns

end

/-! Run-loop lemmas. -/

theorem runLoop_term_ok {α κ τ ρ : Type} (rf : Option ρ → Option ρ → Option ρ)
    (outs : List (Node α κ τ ρ)) (σ σ1 : Store ρ) (r : Option ρ)
    (rest : List (QItem α κ τ)) (h : doDownstreamTerm rf outs σ = .ok (r, σ1)) :
    runLoop rf outs σ (.term :: rest) = ⟨σ1, none, some r, rest, true⟩ := by
  simp [runLoop, h]

theorem runLoop_ev_err {α κ τ ρ : Type} (rf : Option ρ → Option ρ → Option ρ)
    (outs : List (Node α κ τ ρ)) (σ : Store ρ) (e : Event α κ τ) (ex : PyExn)
    (rest : List (QItem α κ τ)) (h : doEventList outs σ e = .error ex) :
    runLoop rf outs σ (.ev e :: rest) = ⟨σ, some ex, some none, rest.tail, true⟩ := by
  simp [runLoop, h]

theorem runLoop_events {α κ τ ρ : Type} (rf : Option ρ → Option ρ → Option ρ)
    (outs : List (Node α κ τ ρ)) (es : List (Event α κ τ)) (σ σ1 : Store ρ)
    (items : List (QItem α κ τ)) (h : procEvents outs σ es = .ok σ1) :
    runLoop rf outs σ (es.map .ev ++ items) = runLoop rf outs σ1 items := by
  induction es generalizing σ with
  | nil =>
      simp only [procEvents, pure, Except.pure] at h
      cases h
      rfl
  | cons e es ih =>
      simp only [procEvents] at h
      cases hd : doEventList outs σ e with
      | error ex =>
          rw [hd] at h
          simp [Bind.bind, Except.bind] at h
      | ok σ' =>
          rw [hd] at h
          simp only [Bind.bind, Except.bind] at h
          show runLoop rf outs σ (.ev e :: (es.map .ev ++ items)) = _
          simp only [runLoop, hd]
          exact ih σ' h

/-! Worker lemmas. -/

theorem workerBody_all_ok {α κ τ : Type}
    (join : α → HttpResponse → Except PyExn (Option α))
    (jobs : List (JQItem α κ τ)) (h : ∀ it ∈ jobs, jobOk join it) :
    ∀ acc, workerBody join (jobs ++ [.term]) acc
      = ⟨acc.reverse ++ jobs.filterMap (derivedEvent join), none, [], true⟩ := by
  induction jobs with
  | nil =>
      intro acc
      simp [workerBody]
  | cons it jobs ih =>
      intro acc
      cases it with
      | term => exact absurd (h .term (by simp)) (by simp [jobOk])
      | job e resp =>
          obtain ⟨r, hr⟩ := h (.job e resp) (by simp)
          have htail : ∀ it ∈ jobs, jobOk join it := fun it hit => h it (by simp [hit])
          cases r with
          | some j =>
              show workerBody join (.job e resp :: (jobs ++ [.term])) acc = _
              rw [show workerBody join (.job e resp :: (jobs ++ [.term])) acc
                    = workerBody join (jobs ++ [.term]) (⟨j, e.key, e.time⟩ :: acc)
                  from by simp [workerBody, hr]]
              rw [ih htail]
              simp [derivedEvent, hr, List.filterMap_cons]
          | none =>
              show workerBody join (.job e resp :: (jobs ++ [.term])) acc = _
              rw [show workerBody join (.job e resp :: (jobs ++ [.term])) acc
                    = workerBody join (jobs ++ [.term]) acc
                  from by simp [workerBody, hr]]
              rw [ih htail]
              simp [derivedEvent, hr, List.filterMap_cons]

theorem workerBody_no_term_drains {α κ τ : Type}
    (join : α → HttpResponse → Except PyExn (Option α))
    (jobs : List (JQItem α κ τ)) (h : ∀ it ∈ jobs, it ≠ JQItem.term) :
    ∀ acc, (workerBody join (jobs ++ [.term]) acc).error = none →
      (workerBody join (jobs ++ [.term]) acc).rest = []
        ∧ (workerBody join (jobs ++ [.term]) acc).exited = true := by
  induction jobs with
  | nil =>
      intro acc _
      simp [workerBody]
  | cons it jobs ih =>
      intro acc herr
      cases it with
      | term => exact absurd rfl (h .term (by simp))
      | job e resp =>
          have htail : ∀ it ∈ jobs, it ≠ JQItem.term := fun it hit => h it (by simp [hit])
          cases hr : resp >>= join e.element with
          | error ex =>
              rw [show workerBody join ((JQItem.job e resp :: jobs) ++ [.term]) acc
                    = ⟨acc.reverse, some ex, (jobs ++ [JQItem.term]).tail, true⟩
                  from by simp [workerBody, hr]] at herr
              simp at herr
          | ok r =>
              cases r with
              | some j =>
                  have hstep : workerBody join ((JQItem.job e resp :: jobs) ++ [.term]) acc
                      = workerBody join (jobs ++ [.term]) (⟨j, e.key, e.time⟩ :: acc) := by
                    simp [workerBody, hr]
                  rw [hstep] at herr ⊢
                  exact ih htail _ herr
              | none =>
                  have hstep : workerBody join ((JQItem.job e resp :: jobs) ++ [.term]) acc
                      = workerBody join (jobs ++ [.term]) acc := by
                    simp [workerBody, hr]
                  rw [hstep] at herr ⊢
                  exact ih htail _ herr

theorem workerRun_exit {α κ τ : Type}
    (join : α → HttpResponse → Except PyExn (Option α)) (q : List (JQItem α κ τ)) :
    (workerRun join q).exit = workerBody join q [] := by
  unfold workerRun
  rcases h : workerBody join q [] with ⟨f, er, r, ex⟩
  cases ex <;> simp

theorem workerRun_closed {α κ τ : Type}
    (join : α → HttpResponse → Except PyExn (Option α)) (q : List (JQItem α κ τ)) :
    (workerRun join q).sessionClosed = (workerBody join q []).exited := by
  unfold workerRun
  rcases h : workerBody join q [] with ⟨f, er, r, ex⟩
  cases ex <;> simp

/-! Claim C1. -/

/-- Folding the default combiner over any tail of outlet results yields
`None` as soon as the accumulator is `None` (in fact always). -/
theorem doTermFold_default_none {α κ τ ρ : Type} (ns : List (Node α κ τ ρ)) :
    ∀ (acc : Option ρ) (σ : Store ρ) (r : Option ρ) (σ' : Store ρ),
      doTermFold defaultResFn acc ns σ = .ok (r, σ') → r = defaultResFn acc acc ∨ r = acc := by
  induction ns with
  | nil =>
      intro acc σ r σ' h
      simp only [doTermFold, pure, Except.pure] at h
      cases h
      exact Or.inr rfl
  | cons n ns ih =>
      intro acc σ r σ' h
      simp only [doTermFold] at h
      cases hd : doTerm n σ with
      | error ex =>
          rw [hd] at h
          simp [Bind.bind, Except.bind] at h
      | ok p =>
          obtain ⟨ri, σ1⟩ := p
          rw [hd] at h
          simp only [Bind.bind, Except.bind] at h
          rcases ih (defaultResFn acc ri) σ1 r σ' h with h1 | h1 <;>
            simp [defaultResFn, h1]

/-- Two `Reduce` outlets wired directly under one parent. -/
def twoReduceOutlets : List (Node Nat Nat Nat Nat) :=
  [.reduce 0 (fun a x => .ok (a + x)), .reduce 1 (fun a x => .ok (a + x))]

/-- The last of the two outlets. -/
def twoReduceLast : Node Nat Nat Nat Nat := .reduce 1 (fun a x => .ok (a + x))

/-- A store under which the two reduce cells hold 5 and 6. -/
def twoReduceStore : Store Nat := fun i => i + 5

/-- Claim C1 is false on the code: for a node with two outlets and the
default combiner (`lambda x, y: None`), the combined termination result is
`None`, whereas the last outlet's own termination result is `some 6` —
the default combiner does not keep the last outlet's result. -/
theorem spec_c1_counterexample :
    (doDownstreamTerm defaultResFn twoReduceOutlets twoReduceStore).map Prod.fst
        = .ok (none : Option Nat)
      ∧ twoReduceOutlets.getLast? = some twoReduceLast
      ∧ (doTerm twoReduceLast twoReduceStore).map Prod.fst = .ok (some 6)
      ∧ (Except.ok (none : Option Nat) : Except PyExn (Option Nat)) ≠ .ok (some 6) := by
  refine ⟨?_, rfl, ?_, by simp⟩
  · rw [show twoReduceOutlets
        = [Node.reduce 0 (fun a x => .ok (a + x)), twoReduceLast] from rfl]
    simp only [doDownstreamTerm, doTermFold, twoReduceLast, doTerm_reduce,
      Bind.bind, Except.bind, pure, Except.pure, defaultResFn, Except.map]
  · rw [twoReduceLast, doTerm_reduce]
    rfl

/-- Claim C1 amended: for every node with two or more outlets, when the
combiner is left at its default, the combined termination result returned
from processing the termination signal is `None` — the default combiner
`lambda x, y: None` discards every outlet's result, including the last. -/
theorem spec_c1_amended {α κ τ ρ : Type} (outs : List (Node α κ τ ρ))
    (σ σ' : Store ρ) (r : Option ρ) (hlen : 2 ≤ outs.length)
    (h : doDownstreamTerm defaultResFn outs σ = .ok (r, σ')) : r = none := by
  cases outs with
  | nil => simp at hlen
  | cons n0 rest =>
      cases rest with
      | nil => simp at hlen
      | cons n1 rest =>
          simp only [doDownstreamTerm] at h
          cases hd0 : doTerm n0 σ with
          | error ex =>
              rw [hd0] at h
              simp [Bind.bind, Except.bind] at h
          | ok p0 =>
              obtain ⟨r0, σ1⟩ := p0
              rw [hd0] at h
              simp only [Bind.bind, Except.bind] at h
              simp only [doTermFold] at h
              cases hd1 : doTerm n1 σ1 with
              | error ex =>
                  rw [hd1] at h
                  simp [Bind.bind, Except.bind] at h
              | ok p1 =>
                  obtain ⟨r1, σ2⟩ := p1
                  rw [hd1] at h
                  simp only [Bind.bind, Except.bind] at h
                  rcases doTermFold_default_none rest (defaultResFn r0 r1) σ2 r σ' h with
                    h1 | h1 <;> simp [defaultResFn] at h1 ⊢ <;> exact h1

/-- Witness for the amended claim C1 at the concrete two-outlet graph. -/
theorem spec_c1_witness :
    2 ≤ twoReduceOutlets.length
      ∧ doDownstreamTerm defaultResFn twoReduceOutlets twoReduceStore
          = .ok ((none : Option Nat), twoReduceStore)
      ∧ (none : Option Nat) = none := by
  have hlen : 2 ≤ twoReduceOutlets.length := by simp [twoReduceOutlets]
  have h : doDownstreamTerm defaultResFn twoReduceOutlets twoReduceStore
      = .ok ((none : Option Nat), twoReduceStore) := by
    simp only [twoReduceOutlets, doDownstreamTerm, doTermFold, doTerm_reduce,
      Bind.bind, Except.bind, pure, Except.pure, defaultResFn]
  exact ⟨hlen, h, spec_c1_amended twoReduceOutlets twoReduceStore twoReduceStore none hlen h⟩

/-! Claim C2. -/

/-- A `Map` node with no outlets. -/
def loneMap : Node Nat Nat Nat Nat := .map (fun x => .ok x) defaultResFn []

/-- The all-zero store. -/
def zeroStoreC2 : Store Nat := fun _ => 0

/-- Claim C2 is false on the code: a `Map` node with zero outlets raises
`IndexError` when it processes the termination signal, because
`_do_downstream` reads `self._outlets[0]` unconditionally. -/
theorem spec_c2_counterexample :
    doTerm loneMap zeroStoreC2 = .error .indexError := by
  rw [show doTerm loneMap zeroStoreC2
      = doDownstreamTerm defaultResFn ([] : List (Node Nat Nat Nat Nat)) zeroStoreC2
    from by simp [loneMap, doTerm]]
  exact doDownstreamTerm_nil defaultResFn zeroStoreC2

/-- Claim C2 amended: a non-terminal node (here a `Map`) with zero outlets
raises `IndexError` on the termination signal (the termination path reads
the first outlet unconditionally); a regular event, by contrast, is
processed without error — the event fan-out over zero outlets is a no-op. -/
theorem spec_c2_amended {α κ τ ρ : Type} (f : α → Except PyExn α)
    (rf : Option ρ → Option ρ → Option ρ) (σ : Store ρ) (e : Event α κ τ)
    (v : α) (hf : f e.element = .ok v) :
    doTerm (Node.map f rf ([] : List (Node α κ τ ρ))) σ = .error .indexError
      ∧ doEvent (Node.map f rf ([] : List (Node α κ τ ρ))) σ e = .ok σ := by
  constructor
  · rw [show doTerm (Node.map f rf ([] : List (Node α κ τ ρ))) σ
        = doDownstreamTerm rf ([] : List (Node α κ τ ρ)) σ from by simp [doTerm]]
    exact doDownstreamTerm_nil rf σ
  · rw [show doEvent (Node.map f rf ([] : List (Node α κ τ ρ))) σ e
        = f e.element >>= fun r => doEventList [] σ ⟨r, e.key, e.time⟩ from by
          simp [doEvent]]
    rw [hf]
    show doEventList [] σ ⟨v, e.key, e.time⟩ = .ok σ
    exact doEventList_nil σ _

/-- Witness for the amended claim C2 at a concrete identity map. -/
theorem spec_c2_witness :
    (fun (x : Nat) => (Except.ok x : Except PyExn Nat)) 7 = .ok 7
      ∧ doTerm (Node.map (fun x => .ok x) defaultResFn ([] : List (Node Nat Nat Nat Nat)))
          (fun _ => 0) = .error .indexError
      ∧ doEvent (Node.map (fun x => .ok x) defaultResFn ([] : List (Node Nat Nat Nat Nat)))
          (fun _ => 0) ⟨7, none, 0⟩ = .ok (fun _ => 0) :=
  ⟨rfl,
    (spec_c2_amended (fun x => .ok x) defaultResFn (fun _ => 0) ⟨7, none, 0⟩ 7 rfl).1,
    (spec_c2_amended (fun x => .ok x) defaultResFn (fun _ => 0) ⟨7, none, 0⟩ 7 rfl).2⟩

/-! Claim C3. -/

/-- Claim C3: if processing an event in the tree raises, the run aborts
with no partial result. After `es` process cleanly and processing `e`
raises `ex`, the run loop: records `ex` in `self._ex`; leaves behind the
pending queue minus exactly its first item (so at most one pending item is
discarded); completes the termination future with no result (`None`); and
exits. Afterwards `await_termination` raises `FlowError` carrying `ex` as
its cause, and any subsequent `emit` — which checks the recorded failure
both before and after its queue put — raises the same `FlowError` instead
of completing. -/
theorem spec_c3 {α κ τ ρ : Type} (rf : Option ρ → Option ρ → Option ρ)
    (outs : List (Node α κ τ ρ)) (σ σ1 : Store ρ) (es : List (Event α κ τ))
    (e : Event α κ τ) (rest : List (QItem α κ τ)) (ex : PyExn)
    (hok : procEvents outs σ es = .ok σ1)
    (herr : doEventList outs σ1 e = .error ex) :
    (runLoop rf outs σ (es.map .ev ++ .ev e :: rest)).ex = some ex
      ∧ (runLoop rf outs σ (es.map .ev ++ .ev e :: rest)).future = some none
      ∧ (runLoop rf outs σ (es.map .ev ++ .ev e :: rest)).exited = true
      ∧ (runLoop rf outs σ (es.map .ev ++ .ev e :: rest)).rest = rest.tail
      ∧ rest.length ≤ (runLoop rf outs σ (es.map .ev ++ .ev e :: rest)).rest.length + 1
      ∧ awaitTermination (runLoop rf outs σ (es.map .ev ++ .ev e :: rest))
          = .error (.flowError ex)
      ∧ ∀ exAfter, emitModel (runLoop rf outs σ (es.map .ev ++ .ev e :: rest)).ex exAfter
          = .error (.flowError ex) := by
  have hrun : runLoop rf outs σ (es.map .ev ++ .ev e :: rest)
      = ⟨σ1, some ex, some none, rest.tail, true⟩ := by
    rw [runLoop_events rf outs es σ σ1 _ hok]
    exact runLoop_ev_err rf outs σ1 e ex rest herr
  rw [hrun]
  refine ⟨rfl, rfl, rfl, rfl, ?_, ?_, ?_⟩
  · cases rest <;> simp
  · simp [awaitTermination, raiseOnError, Bind.bind, Except.bind, throw, throwThe,
      MonadExceptOf.throw]
  · intro exAfter
    simp [emitModel, raiseOnError, Bind.bind, Except.bind, throw, throwThe,
      MonadExceptOf.throw]

/-- A map node whose user function always raises. -/
def c3FailNode : Node Nat Nat Nat Nat :=
  .map (fun _ => .error (.userError "boom")) defaultResFn []

/-- Witness for claim C3: the failing pipeline at a concrete input. -/
theorem spec_c3_witness :
    procEvents [c3FailNode] (fun _ => 0) [] = .ok (fun _ => 0)
      ∧ doEventList [c3FailNode] (fun _ => 0) ⟨0, none, 0⟩ = .error (.userError "boom")
      ∧ (runLoop defaultResFn [c3FailNode] (fun _ => 0)
          [.ev ⟨0, none, 0⟩, .term]).ex = some (.userError "boom")
      ∧ awaitTermination (runLoop defaultResFn [c3FailNode] (fun _ => 0)
          [.ev ⟨0, none, 0⟩, .term]) = .error (.flowError (.userError "boom")) := by
  have h1 : procEvents [c3FailNode] (fun _ => 0) ([] : List (Event Nat Nat Nat))
      = .ok (fun _ => 0) := rfl
  have h2 : doEventList [c3FailNode] (fun _ => 0) ⟨0, none, 0⟩
      = .error (.userError "boom") := by
    rw [doEventList_cons]
    rw [show doEvent c3FailNode (fun _ => 0) ⟨0, none, 0⟩ = .error (.userError "boom")
      from by simp [c3FailNode, doEvent, Bind.bind, Except.bind]]
    rfl
  have h := spec_c3 defaultResFn [c3FailNode] (fun _ => 0) (fun _ => 0) []
    ⟨0, none, 0⟩ [.term] (.userError "boom") h1 h2
  exact ⟨h1, h2, h.1, h.2.2.2.2.2.1⟩

/-! Claim C4. -/

/-- Left-folding list append over events collects the payloads in order. -/
theorem foldl_append_elements {α κ τ : Type} (es : List (Event α κ τ)) :
    ∀ init : List α,
      es.foldl (fun a e => a ++ [e.element]) init = init ++ es.map Event.element := by
  induction es with
  | nil => intro init; simp
  | cons e es ih => intro init; simp [ih, List.append_assoc]

/-- Claim C4: for every sequence of emitted events, a pipeline of `k`
identity `Map` nodes ending in a `Reduce` node (cell `i`) processes all
events without error, leaving the accumulator cell at the left fold of the
binary function over the payloads in arrival order, starting from the
cell's initial value; the pipeline's termination result is exactly that
fold. Instantiating the fold with list append shows the pipeline delivered
exactly the emitted payloads, in emission order. -/
theorem spec_c4 :
    (∀ (α κ τ ρ : Type) (k i : Nat) (g : ρ → α → ρ) (σ : Store ρ)
        (es : List (Event α κ τ)),
        procEvents [idMapChain k (Node.reduce (κ := κ) (τ := τ) i
              (fun a x => .ok (g a x)))] σ es
            = .ok (setStore σ i (es.foldl (fun a e => g a e.element) (σ i)))
          ∧ (doDownstreamTerm defaultResFn
              [idMapChain k (Node.reduce (κ := κ) (τ := τ) i
                (fun a x => .ok (g a x)))]
              (setStore σ i (es.foldl (fun a e => g a e.element) (σ i)))).map Prod.fst
            = .ok (some (es.foldl (fun a e => g a e.element) (σ i))))
      ∧ ∀ (α κ τ : Type) (k i : Nat) (σ : Store (List α)) (es : List (Event α κ τ)),
        procEvents [idMapChain k (Node.reduce (κ := κ) (τ := τ) i
            (fun (a : List α) x => .ok (a ++ [x])))] σ es
          = .ok (setStore σ i (σ i ++ es.map Event.element)) := by
  constructor
  · intro α κ τ ρ k i g σ es
    refine ⟨procEvents_chain_reduce k i g σ es, ?_⟩
    rw [doDownstreamTerm_single, idMapChain_doTerm, doTerm_reduce, setStore_apply_self]
    rfl
  · intro α κ τ k i σ es
    rw [procEvents_chain_reduce k i (fun (a : List α) x => a ++ [x]) σ es,
      foldl_append_elements]

/-! Claim C7. -/

/-- Claim C7: a `Filter` node forwards the original event itself — payload,
key and timestamp unchanged — to its outlets exactly when the predicate is
truthy on the payload, and forwards nothing otherwise; consequently a
pipeline `filter(p) -> reduce(list-append, init)` processes any event
sequence without error and terminates with `init ++ [x for x in payloads
if p(x)]`, preserving order. -/
theorem spec_c7 :
    (∀ (α κ τ ρ : Type) (p : α → Bool) (rf : Option ρ → Option ρ → Option ρ)
        (outs : List (Node α κ τ ρ)) (σ : Store ρ) (e : Event α κ τ),
        doEvent (Node.filter (fun x => .ok (p x)) rf outs) σ e
          = if p e.element then doEventList outs σ e else .ok σ)
      ∧ ∀ (α κ τ : Type) (p : α → Bool) (i : Nat) (σ : Store (List α))
          (es : List (Event α κ τ)),
        procEvents [Node.filter (κ := κ) (τ := τ) (fun x => .ok (p x)) defaultResFn
              [Node.reduce i (fun (a : List α) x => .ok (a ++ [x]))]] σ es
            = .ok (setStore σ i (σ i ++ (es.map Event.element).filter p))
          ∧ (doDownstreamTerm defaultResFn
              [Node.filter (κ := κ) (τ := τ) (fun x => .ok (p x)) defaultResFn
                [Node.reduce i (fun (a : List α) x => .ok (a ++ [x]))]]
              (setStore σ i (σ i ++ (es.map Event.element).filter p))).map Prod.fst
            = .ok (some (σ i ++ (es.map Event.element).filter p)) := by
  constructor
  · intro α κ τ ρ p rf outs σ e
    exact doEvent_filter_ok p rf outs σ e
  · intro α κ τ p i σ es
    refine ⟨procEvents_filter_reduce p i σ es, ?_⟩
    rw [doDownstreamTerm_single]
    rw [show doTerm (Node.filter (κ := κ) (τ := τ) (fun x => .ok (p x)) defaultResFn
          [Node.reduce i (fun (a : List α) x => .ok (a ++ [x]))])
          (setStore σ i (σ i ++ (es.map Event.element).filter p))
        = doDownstreamTerm defaultResFn
            [Node.reduce (κ := κ) (τ := τ) i (fun (a : List α) x => .ok (a ++ [x]))]
            (setStore σ i (σ i ++ (es.map Event.element).filter p))
      from by simp [doTerm]]
    rw [doDownstreamTerm_single, doTerm_reduce, setStore_apply_self]
    rfl

/-! Claim C8. -/

/-- Claim C8: a `FlatMap` node forwards, through the full outlet fan-out
and in order, exactly one derived event per element of the sequence
`f(payload)`; position-wise, the `j`-th derived event carries the `j`-th
element of `f(payload)` together with the original event's key and
timestamp. -/
theorem spec_c8 {α κ τ ρ : Type} (f : α → List α)
    (rf : Option ρ → Option ρ → Option ρ) (outs : List (Node α κ τ ρ))
    (σ : Store ρ) (e : Event α κ τ) :
    doEvent (Node.flatMap (fun x => .ok (f x)) rf outs) σ e
        = doElems outs σ ((f e.element).map fun x => ⟨x, e.key, e.time⟩)
      ∧ ((f e.element).map fun x => (⟨x, e.key, e.time⟩ : Event α κ τ)).length
        = (f e.element).length
      ∧ ∀ j : Nat, ((f e.element).map fun x => (⟨x, e.key, e.time⟩ : Event α κ τ))[j]?
        = ((f e.element)[j]?).map fun x => ⟨x, e.key, e.time⟩ := by
  refine ⟨doEvent_flatMap_ok f rf outs σ e, by simp, ?_⟩
  intro j
  simp

/-! Claim C5. -/

/-- Claim C5: the network-join worker consumes queued jobs strictly in the
order their requests were issued (the internal queue's FIFO order), one at
a time, regardless of when each job's response resolved — each job carries
the outcome its `await` produces, so resolution timing cannot reorder
consumption. When every job's response and join succeed, the events
forwarded downstream are exactly `filterMap` of the issuance-ordered job
list: strict issuance order, never reordered, for any queue length (hence
any max-in-flight bound). -/
theorem spec_c5 {α κ τ : Type} (join : α → HttpResponse → Except PyExn (Option α))
    (jobs : List (JQItem α κ τ)) (h : ∀ it ∈ jobs, jobOk join it) :
    workerRun join (jobs ++ [.term])
      = ⟨⟨jobs.filterMap (derivedEvent join), none, [], true⟩, true⟩ := by
  have hb := workerBody_all_ok join jobs h []
  simp only [List.reverse_nil, List.nil_append] at hb
  unfold workerRun
  rw [hb]

/-- Three concrete jobs: the middle one joins to `None` (404), the other
two succeed. -/
def c5Jobs : List (JQItem Nat Nat Nat) :=
  [.job ⟨1, none, 10⟩ (.ok ⟨200, "ab"⟩),
   .job ⟨2, none, 20⟩ (.ok ⟨404, ""⟩),
   .job ⟨3, none, 30⟩ (.ok ⟨200, "c"⟩)]

/-- The join function used by the witness: forward only 200 responses. -/
def c5Join : Nat → HttpResponse → Except PyExn (Option Nat) :=
  fun x r => .ok (if r.status = 200 then some (x + r.body.length) else none)

/-- Witness for claim C5 at three concrete jobs. -/
theorem spec_c5_witness :
    (∀ it ∈ c5Jobs, jobOk c5Join it)
      ∧ workerRun c5Join (c5Jobs ++ [.term])
        = ⟨⟨[⟨3, none, 10⟩, ⟨4, none, 30⟩], none, [], true⟩, true⟩ := by
  have h : ∀ it ∈ c5Jobs, jobOk c5Join it := by
    intro it hit
    simp only [c5Jobs, List.mem_cons, List.not_mem_nil, or_false] at hit
    rcases hit with h1 | h1 | h1 <;> rw [h1] <;> exact ⟨_, rfl⟩
  refine ⟨h, ?_⟩
  rw [spec_c5 c5Join c5Jobs h]
  rfl

/-! Claim C6. -/

/-- Claim C6: the termination branch of the network-join node pushes the
termination marker, waits for the worker to exit, and only on a clean
worker exit forwards the termination signal downstream; when it returns a
result, the worker has fully drained its queue and exited, the session is
closed, and the returned value is exactly the downstream termination
result. Moreover, on every exit of the worker loop — success or failure —
the client session is closed (the `finally` clause). -/
theorem spec_c6 :
    (∀ (α κ τ : Type) (join : α → HttpResponse → Except PyExn (Option α))
        (q : List (JQItem α κ τ)),
        (workerRun join q).exit.exited = true → (workerRun join q).sessionClosed = true)
      ∧ ∀ (α κ τ ρ : Type) (join : α → HttpResponse → Except PyExn (Option α))
          (pending : List (JQItem α κ τ)) (rf : Option ρ → Option ρ → Option ρ)
          (outs : List (Node α κ τ ρ)) (σ : Store ρ) (r : Option ρ) (σ' : Store ρ),
        (∀ it ∈ pending, it ≠ JQItem.term) →
        joinDoTerm join pending rf outs σ = .ok (r, σ') →
          (workerRun join (pending ++ [.term])).exit.error = none
            ∧ (workerRun join (pending ++ [.term])).exit.rest = []
            ∧ (workerRun join (pending ++ [.term])).exit.exited = true
            ∧ (workerRun join (pending ++ [.term])).sessionClosed = true
            ∧ doDownstreamTerm rf outs σ = .ok (r, σ') := by
  constructor
  · intro α κ τ join q hex
    rw [workerRun_closed]
    rw [workerRun_exit] at hex
    exact hex
  · intro α κ τ ρ join pending rf outs σ r σ' hnt h
    unfold joinDoTerm at h
    cases herr : (workerRun join (pending ++ [.term])).exit.error with
    | some ex =>
        rw [herr] at h
        simp [throw, throwThe, MonadExceptOf.throw] at h
    | none =>
        rw [herr] at h
        have hres : doDownstreamTerm rf outs σ = .ok (r, σ') := h
        have herr' := herr
        rw [workerRun_exit] at herr'
        have hd := workerBody_no_term_drains join pending hnt [] herr'
        refine ⟨rfl, ?_, ?_, ?_, hres⟩
        · rw [workerRun_exit]
          exact hd.1
        · rw [workerRun_exit]
          exact hd.2
        · rw [workerRun_closed]
          exact hd.2

/-- One concrete pending job ahead of the termination marker. -/
def c6Pending : List (JQItem Nat Nat Nat) :=
  [.job ⟨1, none, 10⟩ (.ok ⟨200, "ab"⟩)]

/-- A single-reduce downstream forest for the C6 witness. -/
def c6Outs : List (Node Nat Nat Nat Nat) :=
  [.reduce 0 (fun a x => .ok (a + x))]

/-- Witness for claim C6: a single successfully joining pending job ahead
of the termination marker, over a single-reduce downstream. -/
theorem spec_c6_witness :
    (∀ it ∈ c6Pending, it ≠ JQItem.term)
      ∧ joinDoTerm c5Join c6Pending defaultResFn c6Outs (fun _ => 9)
          = .ok (some 9, fun _ => 9)
      ∧ (workerRun c5Join (c6Pending ++ [.term])).exit.rest = []
      ∧ (workerRun c5Join (c6Pending ++ [.term])).sessionClosed = true := by
  have hnt : ∀ it ∈ c6Pending, it ≠ JQItem.term := by
    intro it hit
    simp only [c6Pending, List.mem_cons, List.not_mem_nil, or_false] at hit
    rw [hit]
    intro hcon
    cases hcon
  have hterm : joinDoTerm c5Join c6Pending defaultResFn c6Outs (fun _ => 9)
      = .ok (some 9, fun _ => 9) := by
    unfold joinDoTerm
    rw [show (workerRun c5Join (c6Pending ++ [.term])).exit.error = none from by
        rw [workerRun_exit]
        simp [c6Pending, workerBody, c5Join, Bind.bind, Except.bind]]
    show doDownstreamTerm defaultResFn [Node.reduce (α := Nat) (κ := Nat) (τ := Nat) 0
        (fun a x => .ok (a + x))] (fun _ => 9) = .ok (some 9, fun _ => 9)
    rw [doDownstreamTerm_single, doTerm_reduce]
  have h := spec_c6.2 Nat Nat Nat Nat c5Join c6Pending defaultResFn c6Outs
    (fun _ => 9) (some 9) (fun _ => 9) hnt hterm
  exact ⟨hnt, hterm, h.2.1, h.2.2.2.1⟩

/-! Claim C9. -/

/-- Claim C9: in a run that terminates without error (all events process
cleanly and the termination traversal succeeds), the run loop processes
every queued event before the termination signal — the termination result
is computed over the store left by all prior events — exits with no
recorded exception and an empty queue, sets the future to the combined
termination result, and the instrumented termination traversal shows that
every node in the outlet forest receives the termination signal exactly
once: the receipt count equals the number of nodes. -/
theorem spec_c9 {α κ τ ρ : Type} (rf : Option ρ → Option ρ → Option ρ)
    (outs : List (Node α κ τ ρ)) (σ σ1 σ2 : Store ρ) (es : List (Event α κ τ))
    (r : Option ρ)
    (hok : procEvents outs σ es = .ok σ1)
    (hterm : doDownstreamTerm rf outs σ1 = .ok (r, σ2)) :
    runLoop rf outs σ (es.map .ev ++ [.term]) = ⟨σ2, none, some r, [], true⟩
      ∧ doDownstreamTermCount rf outs σ1 = .ok (r, σ2, nodeListCount outs) := by
  constructor
  · rw [runLoop_events rf outs es σ σ1 _ hok]
    exact runLoop_term_ok rf outs σ1 σ2 r [] hterm
  · rw [doDownstreamTermCount_eq, hterm]
    rfl

/-- A two-node pipeline (identity map, then reduce on cell 0) for the C9
witness. -/
def c9Outs : List (Node Nat Nat Nat Nat) :=
  [idMapChain 1 (.reduce 0 (fun a x => .ok (a + x)))]

/-- Witness for claim C9: two events then termination through the concrete
two-node pipeline; both nodes receive the termination signal exactly once. -/
theorem spec_c9_witness :
    procEvents c9Outs (fun _ => 0) [⟨1, none, 0⟩, ⟨2, none, 0⟩]
        = .ok (setStore (fun _ => 0) 0 3)
      ∧ doDownstreamTerm defaultResFn c9Outs (setStore (fun _ => 0) 0 3)
        = .ok (some 3, setStore (fun _ => 0) 0 3)
      ∧ (runLoop defaultResFn c9Outs (fun _ => 0)
          [.ev ⟨1, none, 0⟩, .ev ⟨2, none, 0⟩, .term]).future = some (some 3)
      ∧ doDownstreamTermCount defaultResFn c9Outs (setStore (fun _ => 0) 0 3)
        = .ok (some 3, setStore (fun _ => 0) 0 3, nodeListCount c9Outs)
      ∧ nodeListCount c9Outs = 2 := by
  have hok : procEvents c9Outs (fun _ => 0) [⟨1, none, 0⟩, ⟨2, none, 0⟩]
      = .ok (setStore (fun _ => 0) 0 3) := by
    have h := procEvents_chain_reduce (κ := Nat) (τ := Nat) 1 0 (fun a x => a + x)
      (fun _ => 0) [⟨1, none, 0⟩, ⟨2, none, 0⟩]
    exact h
  have hterm : doDownstreamTerm defaultResFn c9Outs (setStore (fun _ => 0) 0 3)
      = .ok (some 3, setStore (fun _ => 0) 0 3) := by
    rw [show c9Outs = [idMapChain 1 (Node.reduce (α := Nat) (κ := Nat) (τ := Nat) 0
        (fun a x => .ok (a + x)))] from rfl]
    rw [doDownstreamTerm_single, idMapChain_doTerm, doTerm_reduce]
    rfl
  have h := spec_c9 defaultResFn c9Outs (fun _ => 0) (setStore (fun _ => 0) 0 3)
    (setStore (fun _ => 0) 0 3) [⟨1, none, 0⟩, ⟨2, none, 0⟩] (some 3) hok hterm
  refine ⟨hok, hterm, ?_, h.2, ?_⟩
  · have hr := congrArg LoopOutcome.future h.1
    exact hr
  · simp [c9Outs, nodeListCount, nodeCount, idMapChain]

/-! Claim C10. -/

/-- Claim C10: processing the termination signal never mutates the store —
in particular the `Reduce` accumulator is returned but not reset — and a
`Reduce` node's termination processing returns exactly its current cell
value with the store unchanged; consequently running the same graph again
folds the second run's payloads starting from the first run's final
accumulator value rather than from the initial value. -/
theorem spec_c10 :
    (∀ (α κ τ ρ : Type) (n : Node α κ τ ρ) (σ : Store ρ) (r : Option ρ)
        (σ' : Store ρ), doTerm n σ = .ok (r, σ') → σ' = σ)
      ∧ (∀ (α κ τ ρ : Type) (i : Nat) (f : ρ → α → Except PyExn ρ) (σ : Store ρ),
        doTerm (Node.reduce (α := α) (κ := κ) (τ := τ) i f) σ = .ok (some (σ i), σ))
      ∧ ∀ (α κ τ ρ : Type) (i : Nat) (g : ρ → α → ρ) (σ : Store ρ)
          (es1 es2 : List (Event α κ τ)),
        procEvents [Node.reduce (κ := κ) (τ := τ) i (fun a x => .ok (g a x))]
            (setStore σ i (es1.foldl (fun a e => g a e.element) (σ i))) es2
          = .ok (setStore σ i (es2.foldl (fun a e => g a e.element)
              (es1.foldl (fun a e => g a e.element) (σ i)))) := by
  refine ⟨?_, ?_, ?_⟩
  · intro α κ τ ρ n σ r σ' h
    exact doTerm_frame n σ r σ' h
  · intro α κ τ ρ i f σ
    exact doTerm_reduce i f σ
  · intro α κ τ ρ i g σ es1 es2
    have h := procEvents_chain_reduce (κ := κ) (τ := τ) 0 i g
      (setStore σ i (es1.foldl (fun a e => g a e.element) (σ i))) es2
    rw [setStore_apply_self, setStore_setStore] at h
    exact h

/-- Witness for claim C10 at a concrete reduce node with accumulator 5. -/
theorem spec_c10_witness :
    doTerm (Node.reduce (α := Nat) (κ := Nat) (τ := Nat) 0 (fun a x => .ok (a + x)))
        (fun _ => 5) = .ok (some 5, fun _ => 5)
      ∧ ((fun _ => 5) : Store Nat) = ((fun _ => 5) : Store Nat) := by
  have hd : doTerm (Node.reduce (α := Nat) (κ := Nat) (τ := Nat) 0
      (fun a x => .ok (a + x))) (fun _ => 5) = .ok (some 5, fun _ => 5) := by
    rw [doTerm_reduce]
  exact ⟨hd, spec_c10.1 Nat Nat Nat Nat
    (Node.reduce 0 (fun a x => .ok (a + x))) (fun _ => 5) (some 5) (fun _ => 5) hd⟩
